import Mathlib

/-!
# redminefs: the node hierarchy of `main.go`

A shallow embedding of the FUSE nodes of `main.go` (`Projects`, `Project`, `Issue`) and of the
library calls they make, followed by the properties of the lookup and listing operations.

Conventions of the embedding.

* Go `int` is the 64-bit signed integer: a value is an `Int` in `[-2^63, 2^63)`.
  Go `uint64` is a `Nat` below `2^64`; the conversions `uint64(x)` and `int(x)` wrap.
* A Go `string` is a Lean `String` (UTF-8 text); `[]byte(s)` is its UTF-8 encoding.
* The remote tracker is a `redmine.Client`: one answer per call, each either a value or an
  error.
* `os.Exit` ends the process: an operation either returns to the FUSE server or the process
  has exited (`Outcome`); the statements that follow a call are sequenced with `Outcome.bind`.
* The package-level variable `projects` is passed in and handed back explicitly.
-/

set_option autoImplicit false

deriving instance DecidableEq for Except

/-! ## Machine integers -/

/-- Conversion `uint64(x)` of a Go `int`. -/
def toUint64 (x : Int) : Nat := (x % 2 ^ 64).toNat

/-- Conversion `int(x)` of a Go `uint64` (two's complement, 64 bit). -/
def toInt64 (x : Nat) : Int :=
  if x % 2 ^ 64 < 2 ^ 63 then ((x % 2 ^ 64 : Nat) : Int) else ((x % 2 ^ 64 : Nat) : Int) - 2 ^ 64

/-- The values of a Go `int`. -/
def isInt64 (x : Int) : Prop := -(2 : Int) ^ 63 ≤ x ∧ x < 2 ^ 63

instance (x : Int) : Decidable (isInt64 x) := by unfold isInt64; infer_instance

/-! ## Library types -/

/-- Entry kinds of `fuse.Dirent` used by the program. -/
inductive fuse.DirentType where
  | DT_Dir
  | DT_File
  deriving DecidableEq, Repr

/-- The struct `fuse.Dirent` (field `Type` is called `Typ`). -/
structure fuse.Dirent where
  Inode : Nat
  Name : String
  Typ : fuse.DirentType
  deriving DecidableEq, Repr

/-- The error numbers the program returns. -/
inductive fuse.Errno where
  | ENOENT
  deriving DecidableEq, Repr

/-- The fields of `fuse.Attr` the program sets. -/
structure fuse.Attr where
  Inode : Nat
  Mode : Nat
  Size : Nat
  deriving DecidableEq, Repr

/-- An error of the remote client (transport, authentication, not found). -/
inductive redmine.Error where
  | transport
  | auth
  | notFound
  deriving DecidableEq, Repr

/-- The fields of `redmine.Project` the program reads; `Id` is a Go `int`. -/
structure redmine.Project where
  Id : Int
  Name : String
  deriving DecidableEq, Repr

/-- The fields of `redmine.Issue` the program reads; `Id` is a Go `int`. -/
structure redmine.Issue where
  Id : Int
  Subject : String
  Description : String
  deriving DecidableEq, Repr

/-- The remote tracker as seen through `redmine.NewClient(conf.Endpoint, conf.Apikey)`:
the answers of `c.Projects()`, `c.IssuesOf(id)` and `c.Issue(id)`. -/
structure redmine.Client where
  Projects : Except redmine.Error (List redmine.Project)
  IssuesOf : Int → Except redmine.Error (List redmine.Issue)
  Issue : Int → Except redmine.Error redmine.Issue

/-! ## `strconv` and `regexp` -/

/-- The errors of `strconv.Atoi`. -/
inductive strconv.NumError where
  | ErrSyntax
  | ErrRange
  deriving DecidableEq, Repr

/-- An ASCII decimal digit, the class `[0-9]`. -/
def isDigit (c : Char) : Bool := decide ('0'.toNat ≤ c.toNat) && decide (c.toNat ≤ '9'.toNat)

/-- Function `strconv.Itoa`: the decimal rendering of a Go `int`, with `-` for a negative one. -/
def strconv.Itoa (i : Int) : String :=
  if i < 0 then "-" ++ Nat.repr i.natAbs else Nat.repr i.toNat

/-- The digit loop of `strconv.ParseUint(s, 10, 64)`: a character that is not a digit is a syntax
error, a value that leaves `uint64` is a range error. -/
def strconv.parseDigits : List Char → Nat → Except strconv.NumError Nat
  | [], n => .ok n
  | c :: cs, n =>
    if isDigit c then
      if n * 10 + (c.toNat - '0'.toNat) < 2 ^ 64 then
        strconv.parseDigits cs (n * 10 + (c.toNat - '0'.toNat))
      else .error .ErrRange
    else .error .ErrSyntax

/-- Function `strconv.ParseUint(s, 10, 64)`. -/
def strconv.ParseUint (s : List Char) : Except strconv.NumError Nat :=
  match s with
  | [] => .error .ErrSyntax
  | _ => strconv.parseDigits s 0

/-- Function `strconv.Atoi`, that is `strconv.ParseInt(s, 10, 0)` with a 64-bit `int`: an optional
sign, then decimal digits; the value has to fit `int`. -/
def strconv.Atoi (s : String) : Except strconv.NumError Int :=
  match s.data with
  | [] => .error .ErrSyntax
  | c :: cs =>
    let neg := decide (c = '-')
    let body := if c = '+' ∨ c = '-' then cs else c :: cs
    match strconv.ParseUint body with
    | .error .ErrSyntax => .error .ErrSyntax
    | .error .ErrRange => .error .ErrRange
    | .ok un =>
      if !neg && decide (2 ^ 63 ≤ un) then .error .ErrRange
      else if neg && decide (2 ^ 63 < un) then .error .ErrRange
      else .ok (if neg then -(un : Int) else (un : Int))

/-- The call `rp.FindString(name)` for `rp = regexp.MustCompile("^[0-9]+")`: the longest run of
digits at the start of `name` when `name` starts with a digit, the empty string when there is
no match. -/
def rp.FindString (name : String) : String :=
  match name.data with
  | [] => ""
  | c :: cs => if isDigit c then ⟨c :: cs.takeWhile isDigit⟩ else ""

/-- The conversion `[]byte(s)`. -/
def bytes (s : String) : List UInt8 := s.data.flatMap String.utf8EncodeChar

/-! ## Process outcome -/

/-- What a FUSE operation does: it returns a value to the server, or the process has exited with
a status, or the handler has hit a run-time panic (a nil dereference). -/
inductive Outcome (α : Type) where
  | returned (value : α)
  | exited (status : Nat)
  | panicked
  deriving DecidableEq, Repr

/-- Sequencing: nothing runs after the process has exited. -/
def Outcome.bind {α β : Type} (x : Outcome α) (f : α → Outcome β) : Outcome β :=
  match x with
  | .returned a => f a
  | .exited s => .exited s
  | .panicked => .panicked

/-- Function `fatal`: print the message to standard error (not modelled) and `os.Exit(1)`. -/
def fatal (_format : String) (_err : Option redmine.Error) : Outcome Unit := .exited 1

/-! ## The nodes -/

/-- The struct `Issue`. -/
structure Issue where
  Id : Int
  deriving DecidableEq, Repr

/-- The struct `Project`. -/
structure Project where
  Id : Nat
  deriving DecidableEq, Repr

/-- The values of `fs.Node` the program builds. -/
inductive Node where
  | projects
  | project (p : Project)
  | issue (i : Issue)
  deriving DecidableEq, Repr

/-- Method `(*Issue).Attr`. -/
def Issue.Attr (i : Issue) : fuse.Attr :=
  { Inode := toUint64 i.Id, Mode := 0o444, Size := 1000 }

/-- Method `(*Issue).ReadAll`. The statement after `fatal` reads `issue.Description`, and the
client hands out a nil issue together with an error. -/
def Issue.ReadAll (c : redmine.Client) (i : Issue) :
    Outcome (Except redmine.Error (List UInt8)) :=
  match c.Issue i.Id with
  | .error err =>
    (fatal "Failed to fetch issue detail: %s\n" (some err)).bind fun _ => .panicked
  | .ok issue => .returned (.ok (bytes issue.Description))

/-- Method `(*Project).ReadDirAll`. The statements after `fatal` range over `issues`, and the
client hands out a nil slice together with an error. -/
def Project.ReadDirAll (c : redmine.Client) (p : Project) :
    Outcome (Except redmine.Error (List fuse.Dirent)) :=
  let entries (issues : List redmine.Issue) : List fuse.Dirent :=
    issues.foldl (fun issueList i =>
      issueList ++ [{ Inode := toUint64 i.Id, Name := strconv.Itoa i.Id ++ "-" ++ i.Subject,
                      Typ := .DT_File }]) []
  match c.IssuesOf (toInt64 p.Id) with
  | .error err =>
    (fatal "Failed to list issues: %s\n" (some err)).bind fun _ => .returned (.ok (entries []))
  | .ok issues => .returned (.ok (entries issues))

/-- Method `(*Project).Lookup`. -/
def Project.Lookup (_p : Project) (name : String) : Except fuse.Errno Node :=
  let str := rp.FindString name
  match strconv.Atoi str with
  | .error _ => .error .ENOENT
  | .ok id => .ok (.issue { Id := id })

/-- Method `Projects.Lookup`, reading the variable `projects`. -/
def Projects.Lookup (projects : List fuse.Dirent) (name : String) : Except fuse.Errno Node :=
  match projects with
  | [] => .error .ENOENT
  | i :: rest =>
    if name = i.Name then .ok (.project { Id := i.Inode }) else Projects.Lookup rest name

/-- Method `Projects.ReadDirAll`: the value returned and the variable `projects` afterwards. -/
def Projects.ReadDirAll (c : redmine.Client) (projects : List fuse.Dirent) :
    Outcome (Except redmine.Error (List fuse.Dirent) × List fuse.Dirent) :=
  match c.Projects with
  | .error err =>
    (fatal "Failed to list projects: %s\n" (some err)).bind fun _ =>
      .returned (.error err, projects)
  | .ok issues =>
    let projects := issues.foldl (fun projects i =>
      projects ++ [{ Inode := toUint64 i.Id, Name := i.Name, Typ := .DT_Dir }]) []
    .returned (.ok projects, projects)

/-- The number a string of decimal digits denotes (most significant digit first). -/
def denotedNumber (digits : List Char) : Nat :=
  digits.foldl (fun acc c => acc * 10 + (c.toNat - '0'.toNat)) 0

/-- The longest run of decimal digits at the start of a name. -/
def leadingDigitRun (name : String) : List Char := name.data.takeWhile isDigit

/-- The directory entry `Project.ReadDirAll` builds for an issue. -/
def issueEntry (i : redmine.Issue) : fuse.Dirent :=
  { Inode := toUint64 i.Id, Name := strconv.Itoa i.Id ++ "-" ++ i.Subject, Typ := .DT_File }

/-- The directory entry `Projects.ReadDirAll` builds for a project. -/
def projectEntry (i : redmine.Project) : fuse.Dirent :=
  { Inode := toUint64 i.Id, Name := i.Name, Typ := .DT_Dir }

/-! ## Sample remotes -/

/-- The remote of the spec's scenario: one project `Demo` with one issue `42`. -/
def demoClient : redmine.Client :=
  { Projects := .ok [{ Id := 1, Name := "Demo" }]
    IssuesOf := fun id =>
      if id = 1 then .ok [{ Id := 42, Subject := "Fix bug", Description := "steps to reproduce" }]
      else .error .notFound
    Issue := fun id =>
      if id = 42 then .ok { Id := 42, Subject := "Fix bug", Description := "steps to reproduce" }
      else .error .notFound }

/-- A remote whose every call fails with a transport error. -/
def downClient : redmine.Client :=
  { Projects := .error .transport
    IssuesOf := fun _ => .error .transport
    Issue := fun _ => .error .transport }

/-- A remote with the given projects and no issue. -/
def projectsClient (ps : List redmine.Project) : redmine.Client :=
  { Projects := .ok ps, IssuesOf := fun _ => .error .notFound, Issue := fun _ => .error .notFound }

/-- A remote without a project list whose every project has the given issues. -/
def issuesClient (issues : List redmine.Issue) : redmine.Client :=
  { Projects := .error .transport, IssuesOf := fun _ => .ok issues,
    Issue := fun _ => .error .notFound }

/-- A remote whose every issue has a body of `n` letters `a`. -/
def longBodyClient (n : Nat) : redmine.Client :=
  { Projects := .error .transport, IssuesOf := fun _ => .error .transport,
    Issue := fun id => .ok { Id := id, Subject := "long", Description := ⟨List.replicate n 'a'⟩ } }

/-! ## Auxiliary facts: lists and digits -/

theorem foldl_snoc_eq_map {α β : Type} (f : α → β) (l : List α) (init : List β) :
    l.foldl (fun acc a => acc ++ [f a]) init = init ++ l.map f := by
  induction l generalizing init with
  | nil => simp
  | cons a t ih => simp [ih]

theorem digitChar_spec (d : Nat) (h : d < 10) :
    isDigit (Nat.digitChar d) = true ∧ (Nat.digitChar d).toNat - '0'.toNat = d := by
  interval_cases d <;> exact ⟨by decide, by decide⟩

theorem denotedNumber_snoc (l : List Char) (c : Char) :
    denotedNumber (l ++ [c]) = denotedNumber l * 10 + (c.toNat - '0'.toNat) := by
  simp [denotedNumber, List.foldl_append]

/-- With enough fuel `Nat.toDigitsCore 10` puts in front of the accumulator a non-empty string
of digits that denotes the number. -/
theorem toDigitsCore_spec (fuel : Nat) : ∀ (n : Nat) (ds : List Char), n < fuel →
    ∃ l : List Char, Nat.toDigitsCore 10 fuel n ds = l ++ ds ∧ l ≠ [] ∧
      (∀ c ∈ l, isDigit c = true) ∧ denotedNumber l = n := by
  induction fuel with
  | zero => intro n ds h; omega
  | succ fuel ih =>
    intro n ds h
    obtain ⟨hd, hv⟩ := digitChar_spec (n % 10) (Nat.mod_lt _ (by decide))
    rw [Nat.toDigitsCore]
    by_cases h0 : n / 10 = 0
    · refine ⟨[Nat.digitChar (n % 10)], by simp [h0], by simp, by simpa using hd, ?_⟩
      have := denotedNumber_snoc [] (Nat.digitChar (n % 10))
      simp only [List.nil_append] at this
      rw [this, hv]
      simp [denotedNumber]
      omega
    · obtain ⟨l, hl, -, hdig, hval⟩ :=
        ih (n / 10) (Nat.digitChar (n % 10) :: ds) (by omega)
      refine ⟨l ++ [Nat.digitChar (n % 10)], by simp [h0, hl], by simp, ?_, ?_⟩
      · intro c hc
        rcases List.mem_append.mp hc with hc | hc
        · exact hdig c hc
        · simpa [List.mem_singleton.mp hc] using hd
      · rw [denotedNumber_snoc, hval, hv]
        omega

/-- The decimal digits of `Nat.repr`. -/
theorem repr_spec (n : Nat) :
    (Nat.repr n).data ≠ [] ∧ (∀ c ∈ (Nat.repr n).data, isDigit c = true) ∧
      denotedNumber (Nat.repr n).data = n := by
  obtain ⟨l, hl, hne, hdig, hval⟩ := toDigitsCore_spec (n + 1) n [] (Nat.lt_succ_self n)
  have : (Nat.repr n).data = l := by
    simp [Nat.repr, Nat.toDigits, List.asString, hl]
  rw [this]
  exact ⟨hne, hdig, hval⟩

theorem foldl_digits_ge (l : List Char) (a : Nat) :
    a ≤ l.foldl (fun acc c => acc * 10 + (c.toNat - '0'.toNat)) a := by
  induction l generalizing a with
  | nil => simp
  | cons c cs ih =>
    simp only [List.foldl_cons]
    exact le_trans (by omega) (ih _)

/-- On a string of digits the loop of `ParseUint` computes the denoted number, or reports a range
error when that number leaves `uint64`. -/
theorem parseDigits_digits (l : List Char) (hl : ∀ c ∈ l, isDigit c = true) (a : Nat)
    (ha : a < 2 ^ 64) :
    strconv.parseDigits l a =
      if l.foldl (fun acc c => acc * 10 + (c.toNat - '0'.toNat)) a < 2 ^ 64
      then .ok (l.foldl (fun acc c => acc * 10 + (c.toNat - '0'.toNat)) a)
      else .error .ErrRange := by
  induction l generalizing a with
  | nil =>
    simp only [strconv.parseDigits, List.foldl_nil]
    rw [if_pos ha]
  | cons c cs ih =>
    have hc : isDigit c = true := hl c (List.mem_cons_self _ _)
    have hcs : ∀ d ∈ cs, isDigit d = true := fun d hd => hl d (List.mem_cons_of_mem _ hd)
    simp only [strconv.parseDigits, hc, if_true, List.foldl_cons]
    by_cases hlt : a * 10 + (c.toNat - '0'.toNat) < 2 ^ 64
    · rw [if_pos hlt, ih hcs _ hlt]
    · rw [if_neg hlt, if_neg]
      have := foldl_digits_ge cs (a * 10 + (c.toNat - '0'.toNat))
      omega

theorem isDigit_ne_sign (c : Char) (hc : isDigit c = true) : c ≠ '+' ∧ c ≠ '-' := by
  constructor <;> (rintro rfl; revert hc; decide)

/-- On a non-empty string of digits `strconv.Atoi` yields the denoted number when it is below
`2^63` and a range error otherwise. -/
theorem Atoi_digits (c : Char) (cs : List Char) (hl : ∀ d ∈ c :: cs, isDigit d = true) :
    strconv.Atoi ⟨c :: cs⟩ =
      if denotedNumber (c :: cs) < 2 ^ 63 then .ok (denotedNumber (c :: cs) : Int)
      else .error .ErrRange := by
  obtain ⟨hp, hm⟩ := isDigit_ne_sign c (hl c (List.mem_cons_self _ _))
  have hparse := parseDigits_digits (c :: cs) hl 0 (by norm_num)
  simp only [strconv.Atoi, hp, hm, or_self, if_false, decide_False, strconv.ParseUint, hparse]
  unfold denotedNumber
  generalize (c :: cs).foldl (fun acc c => acc * 10 + (c.toNat - '0'.toNat)) 0 = v
  by_cases h64 : v < 2 ^ 64
  · rw [if_pos h64]
    by_cases h63 : v < 2 ^ 63
    · rw [if_pos h63]
      simp only [Bool.not_false, Bool.true_and, Bool.false_and, decide_eq_true_eq,
        Bool.false_eq_true, if_false, if_neg (Nat.not_le.mpr h63)]
    · rw [if_neg h63]
      simp only [Bool.not_false, Bool.true_and, decide_eq_true_eq,
        if_pos (Nat.le_of_not_lt h63)]
  · have h63 : ¬ v < 2 ^ 63 := by omega
    rw [if_neg h64, if_neg h63]

theorem takeWhile_digits_append (l : List Char) (hl : ∀ c ∈ l, isDigit c = true) (c : Char)
    (hc : isDigit c = false) (rest : List Char) :
    (l ++ c :: rest).takeWhile isDigit = l := by
  induction l with
  | nil => simp [List.takeWhile, hc]
  | cons d t ih =>
    have hd : isDigit d = true := hl d (List.mem_cons_self _ _)
    simp [List.takeWhile, hd, ih (fun x hx => hl x (List.mem_cons_of_mem _ hx))]

theorem takeWhile_all_digits (l : List Char) : ∀ c ∈ l.takeWhile isDigit, isDigit c = true := by
  intro c hc
  exact List.mem_takeWhile_imp hc

/-- The match of `^[0-9]+` is the leading digit run. -/
theorem FindString_data (name : String) : (rp.FindString name).data = leadingDigitRun name := by
  unfold rp.FindString leadingDigitRun
  cases h : name.data with
  | nil => simp
  | cons c cs =>
    by_cases hc : isDigit c = true
    · simp [hc, List.takeWhile]
    · simp [hc, List.takeWhile]

/-- What `Project.Lookup` returns, in terms of the leading digit run of the name. -/
theorem Lookup_eq (p : Project) (name : String) :
    Project.Lookup p name =
      if leadingDigitRun name = [] then .error .ENOENT
      else if denotedNumber (leadingDigitRun name) < 2 ^ 63
        then .ok (.issue { Id := (denotedNumber (leadingDigitRun name) : Int) })
        else .error .ENOENT := by
  have hd := FindString_data name
  have hall := takeWhile_all_digits name.data
  unfold Project.Lookup
  cases hrun : leadingDigitRun name with
  | nil =>
    have : rp.FindString name = "" := by
      apply String.ext; rw [hd, hrun]
    simp [this, strconv.Atoi]
  | cons c cs =>
    have : rp.FindString name = ⟨c :: cs⟩ := by
      apply String.ext; rw [hd, hrun]
    have hA := Atoi_digits c cs (by rw [← hrun]; exact hall)
    simp only [this, hA]
    by_cases h63 : denotedNumber (c :: cs) < 2 ^ 63
    · rw [if_pos h63, if_pos h63]; simp
    · rw [if_neg h63, if_neg h63]; simp

theorem toUint64_of_nonneg (x : Int) (h0 : 0 ≤ x) (h63 : x < 2 ^ 63) : (toUint64 x : Int) = x := by
  unfold toUint64
  have hlt : x < 2 ^ 64 := by omega
  rw [Int.emod_eq_of_lt h0 hlt]
  exact Int.toNat_of_nonneg h0

/-- The name `Project.ReadDirAll` gives to an issue with a non-negative id starts with exactly
the decimal digits of the id. -/
theorem entryName_run (id : Int) (h0 : 0 ≤ id) (subject : String) :
    leadingDigitRun (strconv.Itoa id ++ "-" ++ subject) = (Nat.repr id.toNat).data := by
  unfold leadingDigitRun strconv.Itoa
  rw [if_neg (not_lt.mpr h0)]
  have hdash : ("-" : String).data = ['-'] := rfl
  simp only [String.data_append, hdash, List.append_assoc, List.singleton_append]
  exact takeWhile_digits_append _ (repr_spec _).2.1 '-' (by decide) subject.data

theorem Lookup_entryName (q : Project) (id : Int) (h0 : 0 ≤ id) (h63 : id < 2 ^ 63)
    (subject : String) :
    Project.Lookup q (strconv.Itoa id ++ "-" ++ subject) = .ok (.issue { Id := id }) := by
  obtain ⟨hne, -, hval⟩ := repr_spec id.toNat
  rw [Lookup_eq, entryName_run id h0, hval, if_neg hne, if_pos (by omega),
    Int.toNat_of_nonneg h0]

theorem Project_ReadDirAll_ok (c : redmine.Client) (p : Project) (issues : List redmine.Issue)
    (hremote : c.IssuesOf (toInt64 p.Id) = .ok issues) :
    Project.ReadDirAll c p = .returned (.ok (issues.map issueEntry)) := by
  have h := foldl_snoc_eq_map issueEntry issues []
  rw [List.nil_append] at h
  simp only [Project.ReadDirAll, hremote]
  exact congrArg (fun l => Outcome.returned (Except.ok l)) h

theorem Projects_ReadDirAll_ok (c : redmine.Client) (cache : List fuse.Dirent)
    (L : List redmine.Project) (hremote : c.Projects = .ok L) :
    Projects.ReadDirAll c cache = .returned (.ok (L.map projectEntry), L.map projectEntry) := by
  have h := foldl_snoc_eq_map projectEntry L []
  rw [List.nil_append] at h
  simp only [Projects.ReadDirAll, hremote]
  exact congrArg (fun l => Outcome.returned (Except.ok l, l)) h

theorem Projects_Lookup_enoent_iff (cache : List fuse.Dirent) (name : String) :
    Projects.Lookup cache name = .error .ENOENT ↔ ∀ e ∈ cache, e.Name ≠ name := by
  induction cache with
  | nil => simp [Projects.Lookup]
  | cons e rest ih =>
    unfold Projects.Lookup
    by_cases h : name = e.Name
    · simp [h]
    · simp [h, ih, Ne.symm h]

theorem Projects_Lookup_first (pre post : List fuse.Dirent) (e : fuse.Dirent)
    (hfirst : ∀ d ∈ pre, d.Name ≠ e.Name) :
    Projects.Lookup (pre ++ e :: post) e.Name = .ok (.project { Id := e.Inode }) := by
  induction pre with
  | nil => simp [Projects.Lookup]
  | cons d t ih =>
    have hd : e.Name ≠ d.Name := Ne.symm (hfirst d (List.mem_cons_self _ _))
    simp only [List.cons_append, Projects.Lookup, if_neg hd]
    exact ih (fun x hx => hfirst x (List.mem_cons_of_mem _ hx))

theorem bytes_replicate_a (n : Nat) :
    bytes ⟨List.replicate n 'a'⟩ = List.replicate n (97 : UInt8) := by
  have h : String.utf8EncodeChar 'a' = [97] := by decide
  induction n with
  | zero => rfl
  | succ n ih =>
    unfold bytes at ih ⊢
    simp only [List.replicate_succ, List.flatMap_cons, h, ih, List.singleton_append]

/-! ## The claims -/

/-- C1, as stated, fails. Two projects of the same name: looking the name up after the listing
yields the first project, so for the second one the node's `Id` is not the project's id. A
project with a negative id: the node's `Id` is the id converted to `uint64`, not the id. -/
theorem C1_counterexample :
    (Projects.ReadDirAll (projectsClient [{ Id := 1, Name := "A" }, { Id := 2, Name := "A" }]) [] =
        .returned (.ok [⟨1, "A", .DT_Dir⟩, ⟨2, "A", .DT_Dir⟩],
          [⟨1, "A", .DT_Dir⟩, ⟨2, "A", .DT_Dir⟩]) ∧
      Projects.Lookup [⟨1, "A", .DT_Dir⟩, ⟨2, "A", .DT_Dir⟩] "A" = .ok (.project { Id := 1 })) ∧
    (Projects.ReadDirAll (projectsClient [{ Id := -1, Name := "N" }]) [] =
        .returned (.ok [⟨18446744073709551615, "N", .DT_Dir⟩],
          [⟨18446744073709551615, "N", .DT_Dir⟩]) ∧
      Projects.Lookup [⟨18446744073709551615, "N", .DT_Dir⟩] "N" =
        .ok (.project { Id := 18446744073709551615 })) := by
  decide

/-- C1 (amended): let the remote `ListProjects` return a list in which `P` is the first project
of its name. Then `Projects.ReadDirAll` succeeds, whatever the cache held, and afterwards
`Projects.Lookup(P.name)` returns a Project node, not ENOENT, whose `Id` is `uint64(P.id)`;
that is `P.id` itself when `P.id` is not negative. -/
theorem C1_root_lookup_after_listing (c : redmine.Client) (cache : List fuse.Dirent)
    (before after : List redmine.Project) (P : redmine.Project)
    (hremote : c.Projects = .ok (before ++ P :: after))
    (hfirst : ∀ Q ∈ before, Q.Name ≠ P.Name) :
    ∃ entries, Projects.ReadDirAll c cache = .returned (.ok entries, entries) ∧
      ∃ node : Project, Projects.Lookup entries P.Name = .ok (.project node) ∧
        node.Id = toUint64 P.Id ∧ (0 ≤ P.Id → P.Id < 2 ^ 63 → (node.Id : Int) = P.Id) := by
  refine ⟨_, Projects_ReadDirAll_ok c cache _ hremote, { Id := toUint64 P.Id }, ?_, rfl,
    toUint64_of_nonneg P.Id⟩
  rw [List.map_append, List.map_cons]
  refine Projects_Lookup_first (before.map projectEntry) (after.map projectEntry)
    (projectEntry P) ?_
  intro d hd
  obtain ⟨Q, hQ, rfl⟩ := List.mem_map.mp hd
  exact hfirst Q hQ

/-- C1 (amended) at the spec's scenario: the only project is `Demo` with id 1. -/
theorem C1_root_lookup_after_listing_witness :
    (projectsClient [{ Id := 1, Name := "Demo" }]).Projects =
        .ok ([] ++ ({ Id := 1, Name := "Demo" } : redmine.Project) :: []) ∧
      (∀ Q ∈ ([] : List redmine.Project), Q.Name ≠ "Demo") ∧
      ∃ entries, Projects.ReadDirAll (projectsClient [{ Id := 1, Name := "Demo" }]) [] =
          .returned (.ok entries, entries) ∧
        ∃ node : Project, Projects.Lookup entries "Demo" = .ok (.project node) ∧
          node.Id = toUint64 1 ∧ ((0 : Int) ≤ 1 → (1 : Int) < 2 ^ 63 → (node.Id : Int) = 1) :=
  ⟨rfl, by simp,
    C1_root_lookup_after_listing (projectsClient [{ Id := 1, Name := "Demo" }]) [] [] []
      { Id := 1, Name := "Demo" } rfl (by simp)⟩

/-- C2, as stated, fails. An issue with id `-5`: its entry is named `-5-Fix bug`, which does not
start with a digit, and `Project.Lookup` of that name is ENOENT. -/
theorem C2_counterexample :
    Project.ReadDirAll (issuesClient [{ Id := -5, Subject := "Fix bug", Description := "" }])
        { Id := 1 } = .returned (.ok [⟨18446744073709551611, "-5-Fix bug", .DT_File⟩]) ∧
      Project.Lookup { Id := 1 } "-5-Fix bug" = .error .ENOENT := by
  decide

/-- C2 (amended): for every issue `I` with a non-negative id (and any subject) returned by
`ListIssues` for a project, the name of the entry of `I` produced by `Project.ReadDirAll`, when
passed to `Project.Lookup`, yields an Issue node, not ENOENT, whose identifier equals `I.id`. -/
theorem C2_issue_name_round_trip (c : redmine.Client) (p q : Project)
    (issues : List redmine.Issue) (hremote : c.IssuesOf (toInt64 p.Id) = .ok issues) :
    ∃ entries, Project.ReadDirAll c p = .returned (.ok entries) ∧
      entries.length = issues.length ∧
      ∀ (k : Nat) (I : redmine.Issue) (d : fuse.Dirent),
        issues[k]? = some I → entries[k]? = some d → 0 ≤ I.Id → I.Id < 2 ^ 63 →
          Project.Lookup q d.Name = .ok (.issue { Id := I.Id }) := by
  refine ⟨_, Project_ReadDirAll_ok c p issues hremote, by simp, ?_⟩
  intro k I d hI hd h0 h63
  rw [List.getElem?_map, hI] at hd
  simp only [Option.map_some', Option.some.injEq] at hd
  subst hd
  exact Lookup_entryName q I.Id h0 h63 I.Subject

/-- C2 (amended) at the spec's scenario: issue 42 `Fix bug` of project 1. -/
theorem C2_issue_name_round_trip_witness :
    demoClient.IssuesOf (toInt64 1) =
        .ok [{ Id := 42, Subject := "Fix bug", Description := "steps to reproduce" }] ∧
      Project.Lookup { Id := 1 } "42-Fix bug" = .ok (.issue { Id := 42 }) := by
  refine ⟨by decide, ?_⟩
  obtain ⟨entries, hread, -, hlookup⟩ :=
    C2_issue_name_round_trip demoClient { Id := 1 } { Id := 1 }
      [{ Id := 42, Subject := "Fix bug", Description := "steps to reproduce" }] (by decide)
  have hentries : entries = [⟨42, "42-Fix bug", .DT_File⟩] := by
    have h : Project.ReadDirAll demoClient { Id := 1 } =
        .returned (.ok [⟨42, "42-Fix bug", .DT_File⟩]) := by decide
    rw [h] at hread
    injection hread with hread
    injection hread with hread
    exact hread.symm
  subst hentries
  exact hlookup 0 _ _ rfl rfl (by decide) (by decide)

/-- C3, as stated, fails. With the remote down, `Project.ReadDirAll` and `Issue.ReadAll` do not
return an error to their caller: `fatal` ends the process with status 1. -/
theorem C3_counterexample :
    (Project.ReadDirAll downClient { Id := 1 } = .exited 1 ∧
      ∀ err, Project.ReadDirAll downClient { Id := 1 } ≠ .returned (.error err)) ∧
    (Issue.ReadAll downClient { Id := 42 } = .exited 1 ∧
      ∀ err, Issue.ReadAll downClient { Id := 42 } ≠ .returned (.error err)) := by
  have h1 : Project.ReadDirAll downClient { Id := 1 } = .exited 1 := by decide
  have h2 : Issue.ReadAll downClient { Id := 42 } = .exited 1 := by decide
  refine ⟨⟨h1, fun err h => ?_⟩, ⟨h2, fun err h => ?_⟩⟩
  · rw [h1] at h; cases h
  · rw [h2] at h; cases h

/-- C3 (amended): when the remote call fails, no operation hands entries or bytes to its caller.
In `Project.ReadDirAll` (`ListIssues` fails) and in `Issue.ReadAll` (`GetIssueBody` fails) the
operation does not return at all: `fatal` ends the process with exit status 1, so no later
operation is served. In `Projects.ReadDirAll` (`ListProjects` fails) no entry list is returned. -/
theorem C3_remote_failure (c : redmine.Client) (p : Project) (i : Issue)
    (cache : List fuse.Dirent) :
    (∀ err, c.IssuesOf (toInt64 p.Id) = .error err → Project.ReadDirAll c p = .exited 1) ∧
    (∀ err, c.Issue i.Id = .error err → Issue.ReadAll c i = .exited 1) ∧
    (∀ err, c.Projects = .error err →
      ∀ entries cache', Projects.ReadDirAll c cache ≠ .returned (.ok entries, cache')) := by
  refine ⟨fun err h => ?_, fun err h => ?_, fun err h entries cache' hret => ?_⟩
  · simp only [Project.ReadDirAll, h, fatal, Outcome.bind]
  · simp only [Issue.ReadAll, h, fatal, Outcome.bind]
  · simp only [Projects.ReadDirAll, h, fatal, Outcome.bind] at hret
    cases hret

/-- C3 (amended) with every remote call failing on a transport error. -/
theorem C3_remote_failure_witness :
    Project.ReadDirAll downClient { Id := 1 } = .exited 1 ∧
    Issue.ReadAll downClient { Id := 42 } = .exited 1 ∧
    ∀ entries cache', Projects.ReadDirAll downClient [] ≠ .returned (.ok entries, cache') :=
  ⟨(C3_remote_failure downClient { Id := 1 } { Id := 42 } []).1 .transport rfl,
    (C3_remote_failure downClient { Id := 1 } { Id := 42 } []).2.1 .transport rfl,
    (C3_remote_failure downClient { Id := 1 } { Id := 42 } []).2.2 .transport rfl⟩

/-- C4, as stated, fails. The name `9223372036854775808-x` begins with digits that denote
`2^63`, which is no Go `int`: `strconv.Atoi` reports a range error and `Project.Lookup` returns
ENOENT instead of an Issue node. -/
theorem C4_counterexample :
    leadingDigitRun "9223372036854775808-x" = "9223372036854775808".data ∧
      denotedNumber (leadingDigitRun "9223372036854775808-x") = 2 ^ 63 ∧
      Project.Lookup { Id := 1 } "9223372036854775808-x" = .error .ENOENT := by
  decide

/-- C4 (amended): for every name that begins with at least one decimal digit, let `n` be the
number denoted by the maximal leading run of decimal digits. If `n ≤ 2^63 - 1` then
`Project.Lookup` returns an Issue node whose identifier is `n`; otherwise it returns ENOENT.
In both cases the result does not depend on what follows the digits: two names with the same
leading digit run resolve alike. -/
theorem C4_project_lookup_leading_digits (p : Project) (name : String) (c : Char)
    (rest : List Char) (hname : name.data = c :: rest) (hdigit : isDigit c = true) :
    Project.Lookup p name =
        (if denotedNumber (leadingDigitRun name) < 2 ^ 63
          then .ok (.issue { Id := (denotedNumber (leadingDigitRun name) : Int) })
          else .error .ENOENT) ∧
      ∀ (q : Project) (other : String), leadingDigitRun other = leadingDigitRun name →
        Project.Lookup q other = Project.Lookup p name := by
  have hne : leadingDigitRun name ≠ [] := by
    simp [leadingDigitRun, hname, List.takeWhile, hdigit]
  refine ⟨by rw [Lookup_eq, if_neg hne], fun q other h => ?_⟩
  rw [Lookup_eq, Lookup_eq, h]

/-- C4 (amended) at the names `42-Fix bug` and `42` of the spec's scenario. -/
theorem C4_project_lookup_leading_digits_witness :
    ("42-Fix bug" : String).data = '4' :: "2-Fix bug".data ∧ isDigit '4' = true ∧
      Project.Lookup { Id := 1 } "42-Fix bug" = .ok (.issue { Id := 42 }) ∧
      Project.Lookup { Id := 1 } "42" = Project.Lookup { Id := 1 } "42-Fix bug" := by
  have h := C4_project_lookup_leading_digits { Id := 1 } "42-Fix bug" '4' "2-Fix bug".data rfl
    (by decide)
  refine ⟨rfl, by decide, ?_, h.2 { Id := 1 } "42" (by decide)⟩
  rw [h.1]
  decide

/-- C5: for every name whose first character is not a decimal digit, the empty name included,
`Project.Lookup` returns ENOENT and no node. -/
theorem C5_project_lookup_rejects_non_numeric (p : Project) (name : String)
    (hfirst : ∀ c ∈ name.data.head?, isDigit c = false) :
    Project.Lookup p name = .error .ENOENT := by
  have hrun : leadingDigitRun name = [] := by
    unfold leadingDigitRun
    cases h : name.data with
    | nil => rfl
    | cons c cs =>
      have hc : isDigit c = false := hfirst c (by simp [h])
      simp [List.takeWhile, hc]
  rw [Lookup_eq, if_pos hrun]

/-- C5 at the name `nonexistent` of the spec and at the empty name. -/
theorem C5_project_lookup_rejects_non_numeric_witness :
    (∀ c ∈ ("nonexistent" : String).data.head?, isDigit c = false) ∧
      Project.Lookup { Id := 1 } "nonexistent" = .error .ENOENT ∧
      Project.Lookup { Id := 1 } "" = .error .ENOENT := by
  have h1 : ∀ c ∈ ("nonexistent" : String).data.head?, isDigit c = false := by
    intro c hc
    have : c = 'n' := by simpa [eq_comm] using hc
    subst this
    decide
  exact ⟨h1, C5_project_lookup_rejects_non_numeric { Id := 1 } "nonexistent" h1,
    C5_project_lookup_rejects_non_numeric { Id := 1 } "" (by simp)⟩

/-- C6: for every cached listing and every name, `Projects.Lookup` returns ENOENT if and only if
no cached entry has exactly that name, and otherwise it returns a Project node. Names that
differ in letter case do not match, and with an empty cache every name is ENOENT. -/
theorem C6_root_lookup_exact_match :
    (∀ (cache : List fuse.Dirent) (name : String),
      (Projects.Lookup cache name = .error .ENOENT ↔ ∀ e ∈ cache, e.Name ≠ name) ∧
      ((∃ e ∈ cache, e.Name = name) → ∃ node, Projects.Lookup cache name = .ok (.project node))) ∧
    (∀ name : String, Projects.Lookup [] name = .error .ENOENT) ∧
    Projects.Lookup [⟨1, "Demo", .DT_Dir⟩] "demo" = .error .ENOENT ∧
    Projects.Lookup [⟨1, "Demo", .DT_Dir⟩] "Demo" = .ok (.project { Id := 1 }) := by
  refine ⟨fun cache name => ⟨Projects_Lookup_enoent_iff cache name, ?_⟩, fun name => rfl,
    by decide, by decide⟩
  rintro ⟨e, he, rfl⟩
  induction cache with
  | nil => cases he
  | cons d t ih =>
    unfold Projects.Lookup
    by_cases h : e.Name = d.Name
    · exact ⟨_, by rw [if_pos h]⟩
    · rw [if_neg h]
      rcases List.mem_cons.mp he with rfl | ht
      · exact absurd rfl h
      · exact ih ht

/-- C7, as stated, fails. An issue with id `-1`: the identifier of its entry is `uint64(-1)`,
that is `2^64 - 1`, and not the issue's id. -/
theorem C7_counterexample :
    Project.ReadDirAll (issuesClient [{ Id := -1, Subject := "s", Description := "" }])
        { Id := 1 } = .returned (.ok [⟨18446744073709551615, "-1-s", .DT_File⟩]) ∧
      ((18446744073709551615 : Nat) : Int) ≠
        ({ Id := -1, Subject := "s", Description := "" } : redmine.Issue).Id := by
  decide

/-- C7 (amended): for every issue list returned by `ListIssues`, `Project.ReadDirAll` returns
exactly one entry per issue, in the same order, where the k-th entry has identifier
`uint64(id)` for the k-th issue's `id` (the id itself when it is not negative), name equal to
the decimal rendering of that id followed by `-` followed by the issue's subject, and kind
File. -/
theorem C7_project_listing_shape (c : redmine.Client) (p : Project)
    (issues : List redmine.Issue) (hremote : c.IssuesOf (toInt64 p.Id) = .ok issues) :
    ∃ entries, Project.ReadDirAll c p = .returned (.ok entries) ∧
      entries.length = issues.length ∧
      ∀ (k : Nat) (I : redmine.Issue), issues[k]? = some I →
        ∃ d, entries[k]? = some d ∧ d.Inode = toUint64 I.Id ∧
          (0 ≤ I.Id → I.Id < 2 ^ 63 → (d.Inode : Int) = I.Id) ∧
          d.Name = strconv.Itoa I.Id ++ "-" ++ I.Subject ∧ d.Typ = .DT_File := by
  refine ⟨_, Project_ReadDirAll_ok c p issues hremote, by simp, ?_⟩
  intro k I hI
  refine ⟨issueEntry I, by rw [List.getElem?_map, hI]; rfl, rfl, ?_, rfl, rfl⟩
  exact toUint64_of_nonneg I.Id

/-- C7 (amended) at the spec's scenario: the listing of project 1 is the file `42-Fix bug`. -/
theorem C7_project_listing_shape_witness :
    demoClient.IssuesOf (toInt64 1) =
        .ok [{ Id := 42, Subject := "Fix bug", Description := "steps to reproduce" }] ∧
      ∃ entries, Project.ReadDirAll demoClient { Id := 1 } = .returned (.ok entries) ∧
        entries.length = 1 ∧
        ∃ d, entries[0]? = some d ∧ d.Inode = 42 ∧ d.Name = "42-Fix bug" ∧ d.Typ = .DT_File := by
  refine ⟨by decide, ?_⟩
  obtain ⟨entries, hread, hlen, hshape⟩ :=
    C7_project_listing_shape demoClient { Id := 1 }
      [{ Id := 42, Subject := "Fix bug", Description := "steps to reproduce" }] (by decide)
  obtain ⟨d, hd, hino, -, hname, htyp⟩ := hshape 0 _ rfl
  exact ⟨entries, hread, hlen, d, hd, by rw [hino]; decide, by rw [hname]; decide, htyp⟩

/-- C8, as stated, fails. A project with id `-1`: the identifier of its entry is `uint64(-1)`,
that is `2^64 - 1`, and not the project's id. -/
theorem C8_counterexample :
    Projects.ReadDirAll (projectsClient [{ Id := -1, Name := "N" }]) [⟨7, "old", .DT_Dir⟩] =
        .returned (.ok [⟨18446744073709551615, "N", .DT_Dir⟩],
          [⟨18446744073709551615, "N", .DT_Dir⟩]) ∧
      ((18446744073709551615 : Nat) : Int) ≠ ({ Id := -1, Name := "N" } : redmine.Project).Id := by
  decide

/-- C8 (amended): for every project list returned by `ListProjects`, `Projects.ReadDirAll`
returns exactly one Directory entry per project, in the order received (no reordering, no
deduplication), each with identifier `uint64(id)` for the project's `id` (the id itself when it
is not negative) and name = project name, and afterwards the lookup cache equals exactly that
returned sequence regardless of the cache's previous contents. -/
theorem C8_root_listing_shape (c : redmine.Client) (cache : List fuse.Dirent)
    (L : List redmine.Project) (hremote : c.Projects = .ok L) :
    ∃ entries, Projects.ReadDirAll c cache = .returned (.ok entries, entries) ∧
      entries.length = L.length ∧
      ∀ (k : Nat) (P : redmine.Project), L[k]? = some P →
        ∃ d, entries[k]? = some d ∧ d.Inode = toUint64 P.Id ∧
          (0 ≤ P.Id → P.Id < 2 ^ 63 → (d.Inode : Int) = P.Id) ∧
          d.Name = P.Name ∧ d.Typ = .DT_Dir := by
  refine ⟨_, Projects_ReadDirAll_ok c cache L hremote, by simp, ?_⟩
  intro k P hP
  refine ⟨projectEntry P, by rw [List.getElem?_map, hP]; rfl, rfl, ?_, rfl, rfl⟩
  exact toUint64_of_nonneg P.Id

/-- C8 (amended) on a list with a repeated project and a cache holding an old entry. -/
theorem C8_root_listing_shape_witness :
    (projectsClient [{ Id := 2, Name := "B" }, { Id := 1, Name := "A" },
        { Id := 2, Name := "B" }]).Projects =
        .ok [{ Id := 2, Name := "B" }, { Id := 1, Name := "A" }, { Id := 2, Name := "B" }] ∧
      ∃ entries, Projects.ReadDirAll (projectsClient [{ Id := 2, Name := "B" },
          { Id := 1, Name := "A" }, { Id := 2, Name := "B" }]) [⟨7, "old", .DT_Dir⟩] =
          .returned (.ok entries, entries) ∧ entries.length = 3 ∧
        ∃ d, entries[2]? = some d ∧ d.Inode = 2 ∧ d.Name = "B" ∧ d.Typ = .DT_Dir := by
  refine ⟨rfl, ?_⟩
  obtain ⟨entries, hread, hlen, hshape⟩ :=
    C8_root_listing_shape (projectsClient [{ Id := 2, Name := "B" }, { Id := 1, Name := "A" },
      { Id := 2, Name := "B" }]) [⟨7, "old", .DT_Dir⟩] _ rfl
  obtain ⟨d, hd, hino, -, hname, htyp⟩ := hshape 2 { Id := 2, Name := "B" } rfl
  exact ⟨entries, hread, hlen, d, hd, by rw [hino]; decide, hname, htyp⟩

/-- C9: for every issue id and every body string the remote returns for it, `Issue.ReadAll`
succeeds with exactly the bytes of that string: the UTF-8 bytes of the body, all of them, as
many as the body is long, whatever the placeholder size 1000 reported by `Issue.Attr`. -/
theorem C9_issue_read_verbatim (c : redmine.Client) (i : Issue) (issue : redmine.Issue)
    (hremote : c.Issue i.Id = .ok issue) :
    Issue.ReadAll c i = .returned (.ok (bytes issue.Description)) ∧
      bytes issue.Description = issue.Description.toUTF8.data.toList ∧
      (bytes issue.Description).length = issue.Description.utf8ByteSize ∧
      (Issue.Attr i).Size = 1000 := by
  refine ⟨by simp only [Issue.ReadAll, hremote], ?_, ?_, rfl⟩
  · simp [bytes, String.toUTF8]
  · unfold bytes
    generalize issue.Description = s
    obtain ⟨l⟩ := s
    induction l with
    | nil => rfl
    | cons ch t ih =>
      simp only [List.flatMap_cons, List.length_append, String.length_utf8EncodeChar] at ih ⊢
      rw [ih]
      simp [String.utf8ByteSize, String.utf8ByteSize.go, Nat.add_comm]

/-- C9 at the spec's scenario, where reading issue 42 gives the bytes of `steps to reproduce`,
and at a body of 1001 bytes, which is read whole although `Issue.Attr` reports size 1000. -/
theorem C9_issue_read_verbatim_witness :
    (demoClient.Issue 42 =
        .ok { Id := 42, Subject := "Fix bug", Description := "steps to reproduce" } ∧
      Issue.ReadAll demoClient { Id := 42 } = .returned (.ok (bytes "steps to reproduce")) ∧
      (bytes "steps to reproduce").length = 18) ∧
    (Issue.ReadAll (longBodyClient 1001) { Id := 42 } =
        .returned (.ok (List.replicate 1001 (97 : UInt8))) ∧
      (Issue.Attr { Id := 42 }).Size < (List.replicate 1001 (97 : UInt8)).length) := by
  have h := C9_issue_read_verbatim demoClient { Id := 42 }
    { Id := 42, Subject := "Fix bug", Description := "steps to reproduce" } (by decide)
  have hlong := C9_issue_read_verbatim (longBodyClient 1001) { Id := 42 }
    { Id := 42, Subject := "long", Description := ⟨List.replicate 1001 'a'⟩ } rfl
  refine ⟨⟨by decide, h.1, by decide⟩, ?_, ?_⟩
  · rw [hlong.1, bytes_replicate_a]
  · rw [List.length_replicate]
    decide

/-- C10: listing is idempotent under a stable remote. If two consecutive calls of
`Projects.ReadDirAll` get the same project list from the remote, both succeed with
order-for-order equal entry sequences, whatever the cache held before, and the cache after the
second call equals the cache after the first. If two calls of `Project.ReadDirAll` get the same
issue list, both succeed with order-for-order equal entry sequences. -/
theorem C10_listing_idempotent (first second : redmine.Client) (cache : List fuse.Dirent)
    (p : Project) :
    (∀ L, first.Projects = .ok L → second.Projects = .ok L →
      ∃ entries, Projects.ReadDirAll first cache = .returned (.ok entries, entries) ∧
        Projects.ReadDirAll second entries = .returned (.ok entries, entries)) ∧
    (∀ issues, first.IssuesOf (toInt64 p.Id) = .ok issues →
      second.IssuesOf (toInt64 p.Id) = .ok issues →
      ∃ entries, Project.ReadDirAll first p = .returned (.ok entries) ∧
        Project.ReadDirAll second p = .returned (.ok entries)) := by
  refine ⟨fun L h1 h2 => ⟨_, Projects_ReadDirAll_ok first cache L h1,
    Projects_ReadDirAll_ok second _ L h2⟩, fun issues h1 h2 =>
      ⟨_, Project_ReadDirAll_ok first p issues h1, Project_ReadDirAll_ok second p issues h2⟩⟩

/-- C10 at the spec's scenario, the cache holding an old entry before the first call. -/
theorem C10_listing_idempotent_witness :
    (∃ entries, Projects.ReadDirAll demoClient [⟨7, "old", .DT_Dir⟩] =
        .returned (.ok entries, entries) ∧
      Projects.ReadDirAll demoClient entries = .returned (.ok entries, entries)) ∧
    ∃ entries, Project.ReadDirAll demoClient { Id := 1 } = .returned (.ok entries) ∧
      Project.ReadDirAll demoClient { Id := 1 } = .returned (.ok entries) :=
  ⟨(C10_listing_idempotent demoClient demoClient [⟨7, "old", .DT_Dir⟩] { Id := 1 }).1
      [{ Id := 1, Name := "Demo" }] rfl rfl,
    (C10_listing_idempotent demoClient demoClient [⟨7, "old", .DT_Dir⟩] { Id := 1 }).2
      [{ Id := 42, Subject := "Fix bug", Description := "steps to reproduce" }]
      (by decide) (by decide)⟩
